import Mathlib

/-!
Verification of the FABRIK 2D inverse-kinematics solver (`solver.py`).

The solver state is embedded shallowly: 2D points are pairs of reals,
numpy's Euclidean norm is `Real.sqrt` of the sum of squares, and the
backward/forward relaxation sweeps of `iterate` become structurally
recursive functions over the list of segments.  The unbounded
`while not inMarginOfError: iterate` loop of `compute` is modelled by an
outcome type with an explicit divergence case.
-/

namespace Fabrik

/-- A 2D point / vector, as stored in the numpy arrays of the source. -/
structure Vec2 where
  x : ℝ
  y : ℝ

def Vec2.add (a b : Vec2) : Vec2 := ⟨a.x + b.x, a.y + b.y⟩

def Vec2.sub (a b : Vec2) : Vec2 := ⟨a.x - b.x, a.y - b.y⟩

def Vec2.smul (c : ℝ) (v : Vec2) : Vec2 := ⟨c * v.x, c * v.y⟩

/-- Euclidean norm, `np.linalg.norm`. -/
noncomputable def nrm (v : Vec2) : ℝ := Real.sqrt (v.x ^ 2 + v.y ^ 2)

/-- `unitVector(vector)`: `vector / np.linalg.norm(vector)`, componentwise. -/
noncomputable def unitVector (v : Vec2) : Vec2 := ⟨v.x / nrm v, v.y / nrm v⟩

/-- `math.radians`: degrees to radians. -/
noncomputable def radians (d : ℝ) : ℝ := d * (Real.pi / 180)

/-- A segment of the kinematic chain (`Segment2D`). -/
structure Segment2D where
  angle : ℝ
  length : ℝ
  point : Vec2

/-- `Segment2D.__init__`: the initial joint position is the reference point
plus `(cos(radians angle) * length, sin(radians angle) * length)`. -/
noncomputable def Segment2D.make (referenceX referenceY length angle : ℝ) : Segment2D :=
  { angle := angle
    length := length
    point := ⟨referenceX + Real.cos (radians angle) * length,
              referenceY + Real.sin (radians angle) * length⟩ }

/-- The solver state (`FabrikSolver2D.__init__` fields). -/
structure FabrikSolver2D where
  basePoint : Vec2
  segments : List Segment2D
  armLength : ℝ
  marginOfError : ℝ

/-- `FabrikSolver2D.__init__`: empty chain, `armLength = 0`. -/
def FabrikSolver2D.init (baseX baseY marginOfError : ℝ) : FabrikSolver2D :=
  { basePoint := ⟨baseX, baseY⟩
    segments := []
    armLength := 0
    marginOfError := marginOfError }

/-- `FabrikSolver2D.addSegment`: anchor at the last joint (or the base point
when the chain is empty), pass the cumulative angle to the segment
constructor, grow `armLength`, append.  The source performs no validation. -/
noncomputable def addSegment (s : FabrikSolver2D) (length angle : ℝ) : FabrikSolver2D :=
  match s.segments.getLast? with
  | some last =>
      let seg := Segment2D.make last.point.x last.point.y length (angle + last.angle)
      { s with segments := s.segments ++ [seg], armLength := s.armLength + seg.length }
  | none =>
      let seg := Segment2D.make s.basePoint.x s.basePoint.y length angle
      { s with segments := s.segments ++ [seg], armLength := s.armLength + seg.length }

/-- `FabrikSolver2D.isReachable`: distance from base to target strictly
below `armLength`. -/
noncomputable def isReachable (s : FabrikSolver2D) (targetX targetY : ℝ) : Prop :=
  nrm (Vec2.sub s.basePoint ⟨targetX, targetY⟩) < s.armLength

/-- `FabrikSolver2D.inMarginOfError`: reads `segments[-1]`, which raises an
index error on an empty chain; the partiality is modelled by `Option`. -/
noncomputable def inMarginOfError (s : FabrikSolver2D) (targetX targetY : ℝ) : Option Prop :=
  s.segments.getLast?.map fun seg =>
    nrm (Vec2.sub seg.point ⟨targetX, targetY⟩) < s.marginOfError

/-- The margin test as a plain proposition (false on an empty chain, where
the source would instead raise). -/
noncomputable def marginHolds (s : FabrikSolver2D) (targetX targetY : ℝ) : Prop :=
  (inMarginOfError s targetX targetY).getD False

/-- The re-anchoring step shared by both sweeps:
`anchor + len * unit(src - anchor)`. -/
noncomputable def reachPoint (anchor : Vec2) (len : ℝ) (src : Vec2) : Vec2 :=
  Vec2.add anchor (Vec2.smul len (unitVector (Vec2.sub src anchor)))

/-- The final forward step pulling the end effector toward the target:
`prev + (-len) * unit(prev - target)`. -/
noncomputable def pullPoint (prev : Vec2) (len : ℝ) (target : Vec2) : Vec2 :=
  Vec2.add prev (Vec2.smul (-len) (unitVector (Vec2.sub prev target)))

/-- Backward-reaching helper.  The source walks `i` from `len-1` down to `1`,
rewriting `segments[i-1].point` to `anchor + segments[i].length *
unit(segments[i-1].point - anchor)`, where the anchor is the target for the
first step and thereafter the joint just rewritten.  Here the segments are
processed in reversed order (distal to proximal), carrying the anchor and
the length of the segment one step closer to the end effector. -/
noncomputable def backAuxRev : Vec2 → ℝ → List Segment2D → List Segment2D
  | _, _, [] => []
  | anchor, len, s :: rest =>
      let p := reachPoint anchor len s.point
      { s with point := p } :: backAuxRev p s.length rest

/-- The backward-reaching pass of `iterate`.  The last segment's joint is
left untouched; every earlier joint is re-anchored toward the target. -/
noncomputable def backwardPass (target : Vec2) (segs : List Segment2D) : List Segment2D :=
  match segs.reverse with
  | [] => []
  | last :: rest => (last :: backAuxRev target last.length rest).reverse

/-- Forward-reaching helper for the segments after the first: an
intermediate joint is re-anchored to its updated predecessor `prev`; the
last joint is pulled toward the target by
`prev + (-length) * unit(prev - target)`. -/
noncomputable def fwdAux (target : Vec2) : Vec2 → List Segment2D → List Segment2D
  | _, [] => []
  | prev, [s] => [{ s with point := pullPoint prev s.length target }]
  | prev, s :: s2 :: rest =>
      let p := reachPoint prev s.length s.point
      { s with point := p } :: fwdAux target p (s2 :: rest)

/-- The forward-reaching pass of `iterate`.  The source checks `i == 0`
before `i == len-1`, so for a single-segment chain the first branch
(re-anchoring to the base) applies and the target is never consulted. -/
noncomputable def forwardPass (base target : Vec2) : List Segment2D → List Segment2D
  | [] => []
  | s0 :: rest =>
      let p0 := reachPoint base s0.length s0.point
      { s0 with point := p0 } :: fwdAux target p0 rest

/-- `FabrikSolver2D.iterate`: one backward sweep followed by one forward
sweep; only the joint positions change. -/
noncomputable def iterate (s : FabrikSolver2D) (targetX targetY : ℝ) : FabrikSolver2D :=
  { s with segments :=
      forwardPass s.basePoint ⟨targetX, targetY⟩ (backwardPass ⟨targetX, targetY⟩ s.segments) }

/-- `n` repetitions of `iterate` at a fixed target. -/
noncomputable def iterateN (s : FabrikSolver2D) (targetX targetY : ℝ) : Nat → FabrikSolver2D
  | 0 => s
  | n + 1 => iterate (iterateN s targetX targetY n) targetX targetY

/-- Possible outcomes of `compute`: a normal return, a raised index error
from the margin test on an empty chain, or divergence of the unbounded
`while` loop. -/
inductive ComputeOutcome where
  | returns : Bool → FabrikSolver2D → ComputeOutcome
  | fails : ComputeOutcome
  | diverges : ComputeOutcome

open Classical in
/-- `FabrikSolver2D.compute`: return `False` when the target is out of
reach; otherwise run `iterate` until `inMarginOfError` holds and return
`True` with the final state.  The margin test on an empty chain raises
(`fails`); when no number of sweeps ever satisfies the margin test the
`while` loop spins forever (`diverges`). -/
noncomputable def compute (s : FabrikSolver2D) (targetX targetY : ℝ) : ComputeOutcome :=
  if isReachable s targetX targetY then
    if s.segments = [] then ComputeOutcome.fails
    else if h : ∃ n, marginHolds (iterateN s targetX targetY n) targetX targetY then
      ComputeOutcome.returns true (iterateN s targetX targetY (Nat.find h))
    else ComputeOutcome.diverges
  else ComputeOutcome.returns false s

/-- The spec's notion of Euclidean distance between two points, used to
state reachability the way §4.2 words it. -/
noncomputable def specEuclideanDist (a b : Vec2) : ℝ :=
  Real.sqrt ((a.x - b.x) ^ 2 + (a.y - b.y) ^ 2)

/-- Length-preservation invariant of §3: each segment's joint sits at
distance exactly `length` from its predecessor's joint (the base point for
the first segment). -/
def chainInv (prev : Vec2) : List Segment2D → Prop
  | [] => True
  | s :: rest => nrm (Vec2.sub s.point prev) = s.length ∧ chainInv s.point rest

/-- No normalize call of `backAuxRev` receives the zero vector. -/
noncomputable def backAuxOK : Vec2 → ℝ → List Segment2D → Prop
  | _, _, [] => True
  | anchor, len, s :: rest =>
      Vec2.sub s.point anchor ≠ ⟨0, 0⟩ ∧
      backAuxOK (reachPoint anchor len s.point) s.length rest

/-- No normalize call of the backward pass receives the zero vector. -/
noncomputable def backwardOK (target : Vec2) (segs : List Segment2D) : Prop :=
  match segs.reverse with
  | [] => True
  | last :: rest => backAuxOK target last.length rest

/-- No normalize call of `fwdAux` receives the zero vector. -/
noncomputable def fwdAuxOK (target : Vec2) : Vec2 → List Segment2D → Prop
  | _, [] => True
  | prev, [_] => Vec2.sub prev target ≠ ⟨0, 0⟩
  | prev, s :: s2 :: rest =>
      Vec2.sub s.point prev ≠ ⟨0, 0⟩ ∧
      fwdAuxOK target (reachPoint prev s.length s.point) (s2 :: rest)

/-- No normalize call of the forward pass receives the zero vector. -/
noncomputable def forwardOK (base target : Vec2) : List Segment2D → Prop
  | [] => True
  | s0 :: rest =>
      Vec2.sub s0.point base ≠ ⟨0, 0⟩ ∧
      fwdAuxOK target (reachPoint base s0.length s0.point) rest

/-- No normalize call anywhere inside one `iterate` sweep receives the zero
vector. -/
noncomputable def iterateOK (s : FabrikSolver2D) (targetX targetY : ℝ) : Prop :=
  backwardOK ⟨targetX, targetY⟩ s.segments ∧
  forwardOK s.basePoint ⟨targetX, targetY⟩ (backwardPass ⟨targetX, targetY⟩ s.segments)

lemma nrm_nonneg (v : Vec2) : 0 ≤ nrm v := Real.sqrt_nonneg _

lemma nrm_eq_zero_iff (v : Vec2) : nrm v = 0 ↔ v = ⟨0, 0⟩ := by
  obtain ⟨x, y⟩ := v
  simp only [nrm, Vec2.mk.injEq]
  rw [Real.sqrt_eq_zero']
  constructor
  · intro h
    constructor <;> nlinarith [sq_nonneg x, sq_nonneg y]
  · rintro ⟨rfl, rfl⟩
    norm_num

lemma nrm_smul (c : ℝ) (v : Vec2) : nrm (Vec2.smul c v) = |c| * nrm v := by
  obtain ⟨x, y⟩ := v
  simp only [nrm, Vec2.smul]
  rw [show (c * x) ^ 2 + (c * y) ^ 2 = c ^ 2 * (x ^ 2 + y ^ 2) by ring,
    Real.sqrt_mul (sq_nonneg c), Real.sqrt_sq_eq_abs]

lemma unitVector_eq_smul (v : Vec2) : unitVector v = Vec2.smul (nrm v)⁻¹ v := by
  obtain ⟨x, y⟩ := v
  simp only [unitVector, Vec2.smul, Vec2.mk.injEq]
  constructor <;> ring

lemma nrm_unitVector (v : Vec2) (h : v ≠ ⟨0, 0⟩) : nrm (unitVector v) = 1 := by
  have hn : nrm v ≠ 0 := fun h0 => h ((nrm_eq_zero_iff v).mp h0)
  rw [unitVector_eq_smul, nrm_smul, abs_of_nonneg (inv_nonneg.mpr (nrm_nonneg v)),
    inv_mul_cancel₀ hn]

lemma sub_add_cancel_vec (a w : Vec2) : Vec2.sub (Vec2.add a w) a = w := by
  obtain ⟨ax, ay⟩ := a
  obtain ⟨wx, wy⟩ := w
  simp only [Vec2.sub, Vec2.add, Vec2.mk.injEq]
  constructor <;> ring

/-- Re-anchoring a joint to `anchor + c * unit v` puts it at distance `|c|`
from the anchor, provided the normalized vector was nonzero. -/
lemma step_dist (anchor : Vec2) (c : ℝ) (v : Vec2) (hv : v ≠ ⟨0, 0⟩) :
    nrm (Vec2.sub (Vec2.add anchor (Vec2.smul c (unitVector v))) anchor) = |c| := by
  rw [sub_add_cancel_vec, nrm_smul, nrm_unitVector v hv, mul_one]

lemma reachPoint_dist (anchor : Vec2) (len : ℝ) (src : Vec2)
    (hv : Vec2.sub src anchor ≠ ⟨0, 0⟩) :
    nrm (Vec2.sub (reachPoint anchor len src) anchor) = |len| :=
  step_dist anchor len (Vec2.sub src anchor) hv

lemma pullPoint_dist (prev : Vec2) (len : ℝ) (target : Vec2)
    (hv : Vec2.sub prev target ≠ ⟨0, 0⟩) :
    nrm (Vec2.sub (pullPoint prev len target) prev) = |len| := by
  rw [show pullPoint prev len target
      = Vec2.add prev (Vec2.smul (-len) (unitVector (Vec2.sub prev target))) from rfl,
    step_dist prev (-len) _ hv, abs_neg]

lemma unitVector_zero : unitVector ⟨0, 0⟩ = ⟨0, 0⟩ := by
  simp [unitVector]

/-- Evaluation helper: the norm of a concrete vector whose sum of squares
is a perfect square. -/
lemma nrm_eval (x y c : ℝ) (hc : 0 ≤ c) (h : x ^ 2 + y ^ 2 = c ^ 2) :
    nrm ⟨x, y⟩ = c := by
  simp only [nrm]
  rw [h, Real.sqrt_sq hc]

/-- Evaluation helper: normalizing a vector pointing along the positive x
axis. -/
lemma unitVector_pos_x (x : ℝ) (hx : 0 < x) : unitVector ⟨x, 0⟩ = ⟨1, 0⟩ := by
  have h : nrm ⟨x, 0⟩ = x := nrm_eval x 0 x hx.le (by ring)
  simp only [unitVector, h, Vec2.mk.injEq]
  constructor
  · exact div_self hx.ne'
  · simp

/-- The forward-pass helper restores the length invariant along its output,
whenever every normalized vector along the run is nonzero and lengths are
nonnegative. -/
lemma fwdAux_chainInv (target : Vec2) :
    ∀ (l : List Segment2D) (prev : Vec2),
      (∀ s ∈ l, 0 ≤ s.length) → fwdAuxOK target prev l →
      chainInv prev (fwdAux target prev l) := by
  intro l
  induction l with
  | nil => intro prev _ _; simp [fwdAux, chainInv]
  | cons s rest ih =>
      intro prev hlen hok
      cases rest with
      | nil =>
          simp only [fwdAux, fwdAuxOK, chainInv, and_true]
          have h0 : 0 ≤ s.length := hlen s (by simp)
          rw [pullPoint_dist _ _ _ hok, abs_of_nonneg h0]
      | cons s2 rest2 =>
          simp only [fwdAux, fwdAuxOK, chainInv] at hok ⊢
          refine ⟨?_, ?_⟩
          · have h0 : 0 ≤ s.length := hlen s (by simp)
            rw [reachPoint_dist _ _ _ hok.1, abs_of_nonneg h0]
          · exact ih _ (fun t ht => hlen t (by simp [ht])) hok.2

/-- Only joint positions change across the backward-pass helper: every
output segment keeps the length of some input segment. -/
lemma backAuxRev_mem_length :
    ∀ (l : List Segment2D) (anchor : Vec2) (len : ℝ),
      ∀ seg ∈ backAuxRev anchor len l, ∃ s0 ∈ l, seg.length = s0.length := by
  intro l
  induction l with
  | nil => intro anchor len seg h; simp [backAuxRev] at h
  | cons s rest ih =>
      intro anchor len seg h
      simp only [backAuxRev, List.mem_cons] at h
      rcases h with h | h
      · exact ⟨s, by simp, by rw [h]⟩
      · obtain ⟨s0, hs0, he⟩ := ih _ _ seg h
        exact ⟨s0, by simp [hs0], he⟩

/-- Every segment of the backward-pass output keeps the length of some
input segment. -/
lemma backwardPass_mem_length (target : Vec2) (segs : List Segment2D) :
    ∀ seg ∈ backwardPass target segs, ∃ s0 ∈ segs, seg.length = s0.length := by
  intro seg h
  unfold backwardPass at h
  rcases hr : segs.reverse with _ | ⟨last, rest⟩
  · rw [hr] at h; simp at h
  · rw [hr] at h
    rw [List.mem_reverse, List.mem_cons] at h
    have hmem : ∀ t ∈ segs.reverse, t ∈ segs := fun t ht => List.mem_reverse.mp ht
    rcases h with h | h
    · exact ⟨last, hmem last (by rw [hr]; simp), by rw [h]⟩
    · obtain ⟨s0, hs0, he⟩ := backAuxRev_mem_length rest target last.length seg h
      exact ⟨s0, hmem s0 (by rw [hr]; simp [hs0]), he⟩

/-- A single `iterate` sweep restores the §3 length invariant, provided
segment lengths are nonnegative and no normalize call of the sweep received
the zero vector. -/
lemma iterate_chainInv (s : FabrikSolver2D) (targetX targetY : ℝ)
    (hlen : ∀ seg ∈ s.segments, 0 ≤ seg.length)
    (hok : iterateOK s targetX targetY) :
    chainInv s.basePoint (iterate s targetX targetY).segments := by
  have hlen' : ∀ seg ∈ backwardPass ⟨targetX, targetY⟩ s.segments, 0 ≤ seg.length := by
    intro seg h
    obtain ⟨s0, hs0, he⟩ := backwardPass_mem_length _ _ seg h
    rw [he]; exact hlen s0 hs0
  obtain ⟨-, hfwd⟩ := hok
  show chainInv s.basePoint (forwardPass s.basePoint ⟨targetX, targetY⟩
    (backwardPass ⟨targetX, targetY⟩ s.segments))
  rcases hb : backwardPass ⟨targetX, targetY⟩ s.segments with _ | ⟨s0, rest⟩
  · simp [forwardPass, chainInv]
  · rw [hb] at hfwd hlen'
    simp only [forwardPass, forwardOK, chainInv] at hfwd ⊢
    refine ⟨?_, ?_⟩
    · have h0 : 0 ≤ s0.length := hlen' s0 (by simp)
      rw [reachPoint_dist _ _ _ hfwd.1, abs_of_nonneg h0]
    · exact fwdAux_chainInv _ _ _ (fun t ht => hlen' t (by simp [ht])) hfwd.2

/-- The joint position `iterate` assigns to the sole segment of a
single-segment chain: re-anchored to the base along its current direction,
`base + length * unit(point - base)`. -/
noncomputable def singleSweepPoint (base : Vec2) (seg : Segment2D) : Vec2 :=
  reachPoint base seg.length seg.point

/-- On a single-segment chain the backward pass is empty and the forward
pass takes the base-anchoring branch, so the sweep is independent of the
target. -/
lemma iterate_single (s : FabrikSolver2D) (seg : Segment2D) (targetX targetY : ℝ)
    (h : s.segments = [seg]) :
    (iterate s targetX targetY).segments =
      [{ seg with point := singleSweepPoint s.basePoint seg }] := by
  show forwardPass s.basePoint ⟨targetX, targetY⟩
      (backwardPass ⟨targetX, targetY⟩ s.segments) = _
  rw [h]
  simp [backwardPass, backAuxRev, forwardPass, fwdAux, singleSweepPoint]

/-- `iterate` changes only the `segments` field, so a sweep that rebuilds
the same segment list is the identity on the whole state. -/
lemma iterate_eq_self_of_segments (s : FabrikSolver2D) (targetX targetY : ℝ)
    (h : (iterate s targetX targetY).segments = s.segments) :
    iterate s targetX targetY = s := by
  obtain ⟨b, segs, a, m⟩ := s
  simp only [iterate] at h ⊢
  simp only [FabrikSolver2D.mk.injEq]
  simp_all

/-- A fixed point of one sweep is a fixed point of any number of sweeps. -/
lemma iterateN_fixed (s : FabrikSolver2D) (targetX targetY : ℝ)
    (h : iterate s targetX targetY = s) :
    ∀ n, iterateN s targetX targetY n = s := by
  intro n
  induction n with
  | zero => rfl
  | succ n ih => simp only [iterateN, ih, h]

lemma iterate_marginOfError (s : FabrikSolver2D) (targetX targetY : ℝ) :
    (iterate s targetX targetY).marginOfError = s.marginOfError := rfl

lemma iterateN_marginOfError (s : FabrikSolver2D) (targetX targetY : ℝ) (n : Nat) :
    (iterateN s targetX targetY n).marginOfError = s.marginOfError := by
  induction n with
  | zero => rfl
  | succ n ih => simp only [iterateN, iterate_marginOfError, ih]

lemma backAuxRev_length :
    ∀ (l : List Segment2D) (anchor : Vec2) (len : ℝ),
      (backAuxRev anchor len l).length = l.length := by
  intro l
  induction l with
  | nil => intro anchor len; rfl
  | cons s rest ih => intro anchor len; simp [backAuxRev, ih]

lemma backwardPass_length (target : Vec2) (segs : List Segment2D) :
    (backwardPass target segs).length = segs.length := by
  unfold backwardPass
  rcases hr : segs.reverse with _ | ⟨last, rest⟩
  · rw [List.reverse_eq_nil_iff] at hr
    simp [hr]
  · have h : segs.length = rest.length + 1 := by
      rw [← List.length_reverse segs, hr, List.length_cons]
    simp [backAuxRev_length, h]

lemma fwdAux_length (target : Vec2) :
    ∀ (l : List Segment2D) (prev : Vec2), (fwdAux target prev l).length = l.length := by
  intro l
  induction l with
  | nil => intro prev; rfl
  | cons s rest ih =>
      intro prev
      cases rest with
      | nil => rfl
      | cons s2 rest2 => simp only [fwdAux, List.length_cons, ih]

lemma forwardPass_length (base target : Vec2) (segs : List Segment2D) :
    (forwardPass base target segs).length = segs.length := by
  cases segs with
  | nil => rfl
  | cons s0 rest => simp only [forwardPass, List.length_cons, fwdAux_length]

lemma iterate_segments_length (s : FabrikSolver2D) (targetX targetY : ℝ) :
    (iterate s targetX targetY).segments.length = s.segments.length := by
  show (forwardPass _ _ (backwardPass _ s.segments)).length = _
  rw [forwardPass_length, backwardPass_length]

lemma iterateN_segments_length (s : FabrikSolver2D) (targetX targetY : ℝ) (n : Nat) :
    (iterateN s targetX targetY n).segments.length = s.segments.length := by
  induction n with
  | zero => rfl
  | succ n ih => simp only [iterateN, iterate_segments_length, ih]

lemma marginHolds_nonempty (s : FabrikSolver2D) (targetX targetY : ℝ)
    (h : marginHolds s targetX targetY) : s.segments ≠ [] := by
  intro h0
  rw [marginHolds, inMarginOfError, h0] at h
  simp at h

lemma compute_of_unreachable (s : FabrikSolver2D) (targetX targetY : ℝ)
    (h : ¬ isReachable s targetX targetY) :
    compute s targetX targetY = ComputeOutcome.returns false s := by
  unfold compute
  rw [if_neg h]

lemma isReachable_of_init (baseX baseY marginOfError targetX targetY : ℝ) :
    ¬ isReachable (FabrikSolver2D.init baseX baseY marginOfError) targetX targetY := by
  simp only [isReachable, FabrikSolver2D.init, not_lt]
  exact nrm_nonneg _

lemma inMarginOfError_of_init (baseX baseY marginOfError targetX targetY : ℝ) :
    inMarginOfError (FabrikSolver2D.init baseX baseY marginOfError) targetX targetY = none := by
  simp [inMarginOfError, FabrikSolver2D.init]

lemma compute_of_converging (s : FabrikSolver2D) (targetX targetY : ℝ)
    (hr : isReachable s targetX targetY)
    (hc : ∃ n, marginHolds (iterateN s targetX targetY n) targetX targetY) :
    ∃ s', compute s targetX targetY = ComputeOutcome.returns true s' ∧
      marginHolds s' targetX targetY ∧ s'.marginOfError = s.marginOfError := by
  classical
  have hne : s.segments ≠ [] := by
    intro h0
    obtain ⟨n, hn⟩ := hc
    apply marginHolds_nonempty _ _ _ hn
    have := iterateN_segments_length s targetX targetY n
    rw [h0] at this
    exact List.eq_nil_of_length_eq_zero this
  unfold compute
  rw [if_pos hr, if_neg hne, dif_pos hc]
  exact ⟨_, rfl, Nat.find_spec hc, iterateN_marginOfError _ _ _ _⟩

lemma compute_diverges_iff (s : FabrikSolver2D) (targetX targetY : ℝ) :
    compute s targetX targetY = ComputeOutcome.diverges ↔
      isReachable s targetX targetY ∧ s.segments ≠ [] ∧
        ∀ n, ¬ marginHolds (iterateN s targetX targetY n) targetX targetY := by
  unfold compute
  by_cases h1 : isReachable s targetX targetY
  · rw [if_pos h1]
    by_cases h2 : s.segments = []
    · rw [if_pos h2]
      constructor
      · intro h; exact ComputeOutcome.noConfusion h
      · rintro ⟨-, hne, -⟩; exact absurd h2 hne
    · rw [if_neg h2]
      by_cases h3 : ∃ n, marginHolds (iterateN s targetX targetY n) targetX targetY
      · rw [dif_pos h3]
        constructor
        · intro h; exact ComputeOutcome.noConfusion h
        · rintro ⟨-, -, hall⟩
          obtain ⟨n, hn⟩ := h3
          exact absurd hn (hall n)
      · rw [dif_neg h3]
        push_neg at h3
        exact ⟨fun _ => ⟨h1, h2, h3⟩, fun _ => rfl⟩
  · rw [if_neg h1]
    constructor
    · intro h; exact ComputeOutcome.noConfusion h
    · rintro ⟨hr, -, -⟩; exact absurd hr h1

/-- Concrete single-segment chain: one segment of length 10 lying along the
positive x axis, base at the origin, margin `0.01`. -/
noncomputable def wSingleSeg : Segment2D := ⟨0, 10, ⟨10, 0⟩⟩

noncomputable def wSingle : FabrikSolver2D := ⟨⟨0, 0⟩, [wSingleSeg], 10, 1 / 100⟩

/-- One sweep leaves the single-segment chain `wSingle` exactly where it
is, whatever the target. -/
lemma wSingle_fixed (targetX targetY : ℝ) : iterate wSingle targetX targetY = wSingle := by
  apply iterate_eq_self_of_segments
  rw [iterate_single wSingle wSingleSeg targetX targetY rfl]
  have h1 : Vec2.sub wSingleSeg.point wSingle.basePoint = ⟨10, 0⟩ := by
    simp [wSingleSeg, wSingle, Vec2.sub]
  have h2 : singleSweepPoint wSingle.basePoint wSingleSeg = ⟨10, 0⟩ := by
    rw [singleSweepPoint, reachPoint, h1, unitVector_pos_x 10 (by norm_num)]
    simp [wSingle, wSingleSeg, Vec2.add, Vec2.smul]
  rw [h2]
  show [{ wSingleSeg with point := (⟨10, 0⟩ : Vec2) }] = [wSingleSeg]
  rfl

/-- The margin test on `wSingle` unfolds to a distance comparison against
the end effector at `(10, 0)`. -/
lemma wSingle_margin_iff (targetX targetY : ℝ) :
    marginHolds wSingle targetX targetY ↔
      nrm (Vec2.sub ⟨10, 0⟩ ⟨targetX, targetY⟩) < 1 / 100 := by
  rw [marginHolds, inMarginOfError]
  show (Option.map _ (some wSingleSeg)).getD False ↔ _
  simp [wSingle, wSingleSeg]

/-- `compute` on `wSingle` diverges at any reachable target whose distance
from the frozen end effector `(10, 0)` stays at least the margin. -/
lemma wSingle_diverges (targetX targetY : ℝ)
    (hr : isReachable wSingle targetX targetY)
    (hm : ¬ nrm (Vec2.sub ⟨10, 0⟩ ⟨targetX, targetY⟩) < 1 / 100) :
    compute wSingle targetX targetY = ComputeOutcome.diverges := by
  rw [compute_diverges_iff]
  refine ⟨hr, by simp [wSingle], fun n => ?_⟩
  rw [iterateN_fixed _ _ _ (wSingle_fixed targetX targetY) n, wSingle_margin_iff]
  exact hm

lemma nrm_x_axis (x : ℝ) (h : 0 ≤ x) : nrm ⟨x, 0⟩ = x := nrm_eval x 0 x h (by ring)

/-- Concrete two-segment chain for exercising one full sweep: lengths 3 and
2 along the x axis, base at the origin. -/
noncomputable def wChainA : Segment2D := ⟨0, 3, ⟨3, 0⟩⟩

noncomputable def wChainB : Segment2D := ⟨0, 2, ⟨5, 0⟩⟩

noncomputable def wChain : FabrikSolver2D := ⟨⟨0, 0⟩, [wChainA, wChainB], 5, 1 / 100⟩

lemma wChain_backwardPass :
    backwardPass ⟨0, 0⟩ wChain.segments = [⟨0, 3, ⟨2, 0⟩⟩, wChainB] := by
  have hs : Vec2.sub wChainA.point ⟨0, 0⟩ = ⟨3, 0⟩ := by
    simp [wChainA, Vec2.sub]
  have hp : reachPoint ⟨0, 0⟩ wChainB.length wChainA.point = ⟨2, 0⟩ := by
    rw [reachPoint, hs, unitVector_pos_x 3 (by norm_num)]
    norm_num [wChainB, Vec2.add, Vec2.smul]
  show (wChainB :: [{ wChainA with point := reachPoint ⟨0, 0⟩ wChainB.length wChainA.point }]).reverse = _
  rw [hp]
  show [{ wChainA with point := (⟨2, 0⟩ : Vec2) }, wChainB] = _
  simp [wChainA]

lemma wChain_forwardOK :
    forwardOK wChain.basePoint ⟨0, 0⟩ [⟨0, 3, ⟨2, 0⟩⟩, wChainB] := by
  have h2 : Vec2.sub ⟨2, 0⟩ (⟨0, 0⟩ : Vec2) = ⟨2, 0⟩ := by simp [Vec2.sub]
  have hp0 : reachPoint (⟨0, 0⟩ : Vec2) 3 ⟨2, 0⟩ = ⟨3, 0⟩ := by
    rw [reachPoint, h2, unitVector_pos_x 2 (by norm_num)]
    norm_num [Vec2.add, Vec2.smul]
  show Vec2.sub ⟨2, 0⟩ ⟨0, 0⟩ ≠ ⟨0, 0⟩ ∧
    fwdAuxOK ⟨0, 0⟩ (reachPoint ⟨0, 0⟩ 3 ⟨2, 0⟩) [wChainB]
  refine ⟨by rw [h2]; norm_num [Vec2.mk.injEq], ?_⟩
  rw [hp0]
  show Vec2.sub ⟨3, 0⟩ ⟨0, 0⟩ ≠ ⟨0, 0⟩
  norm_num [Vec2.sub, Vec2.mk.injEq]

lemma wChain_iterateOK : iterateOK wChain 0 0 := by
  constructor
  · show backAuxOK ⟨0, 0⟩ wChainB.length [wChainA]
    refine ⟨?_, trivial⟩
    norm_num [wChainA, Vec2.sub, Vec2.mk.injEq]
  · rw [show (⟨(0 : ℝ), (0 : ℝ)⟩ : Vec2) = (⟨0, 0⟩ : Vec2) from rfl, wChain_backwardPass]
    exact wChain_forwardOK

lemma wChain_lengths : ∀ seg ∈ wChain.segments, 0 ≤ seg.length := by
  intro seg h
  simp only [wChain, List.mem_cons, List.not_mem_nil, or_false] at h
  rcases h with rfl | rfl <;> norm_num [wChainA, wChainB]

/-- Concrete two-segment chain whose end effector already coincides with
the target `(5, 0)` and whose recorded `armLength` (9) exceeds the target
distance, so `compute` succeeds after zero sweeps. -/
noncomputable def wSlackA : Segment2D := ⟨0, 4, ⟨3, 0⟩⟩

noncomputable def wSlackB : Segment2D := ⟨0, 5, ⟨5, 0⟩⟩

noncomputable def wSlack : FabrikSolver2D := ⟨⟨0, 0⟩, [wSlackA, wSlackB], 9, 1 / 100⟩

lemma wSlack_reachable : isReachable wSlack 5 0 := by
  show nrm (Vec2.sub wSlack.basePoint ⟨5, 0⟩) < wSlack.armLength
  have hs : Vec2.sub wSlack.basePoint ⟨5, 0⟩ = ⟨-5, 0⟩ := by
    simp [wSlack, Vec2.sub]
  rw [hs, nrm_eval (-5) 0 5 (by norm_num) (by norm_num)]
  norm_num [wSlack]

lemma addSegment_none (s : FabrikSolver2D) (len ang : ℝ)
    (h : s.segments.getLast? = none) :
    addSegment s len ang =
      { s with
          segments := s.segments ++ [Segment2D.make s.basePoint.x s.basePoint.y len ang]
          armLength := s.armLength + (Segment2D.make s.basePoint.x s.basePoint.y len ang).length } := by
  unfold addSegment
  rw [h]

lemma addSegment_some (s : FabrikSolver2D) (len ang : ℝ) (last : Segment2D)
    (h : s.segments.getLast? = some last) :
    addSegment s len ang =
      { s with
          segments := s.segments ++ [Segment2D.make last.point.x last.point.y len (ang + last.angle)]
          armLength := s.armLength + (Segment2D.make last.point.x last.point.y len (ang + last.angle)).length } := by
  unfold addSegment
  rw [h]

lemma iterate_ext (s : FabrikSolver2D) (targetX targetY tX tY : ℝ)
    (h : (iterate s targetX targetY).segments = (iterate s tX tY).segments) :
    iterate s targetX targetY = iterate s tX tY := by
  obtain ⟨b, segs, a, m⟩ := s
  simp only [iterate] at h ⊢
  simp only [FabrikSolver2D.mk.injEq]
  simp_all

lemma wSlack_margin : marginHolds wSlack 5 0 := by
  show nrm (Vec2.sub wSlackB.point ⟨5, 0⟩) < wSlack.marginOfError
  have hs : Vec2.sub wSlackB.point ⟨5, 0⟩ = ⟨0, 0⟩ := by
    simp [wSlackB, Vec2.sub]
  rw [hs, nrm_eval 0 0 0 le_rfl (by ring)]
  norm_num [wSlack]

/-- C1: for every chain with at least one segment and every target, at the
end of each solving pass (each call to `iterate`, the only operation through
which `compute` modifies state) the Euclidean distance between segment i's
joint position and its predecessor's joint position (the base point for the
first segment) equals segment i's fixed length, provided no normalize
operation received a zero vector (lengths being nonnegative, as chains are). -/
theorem c1_length_preservation (s : FabrikSolver2D) (targetX targetY : ℝ)
    (hne : s.segments ≠ [])
    (hlen : ∀ seg ∈ s.segments, 0 ≤ seg.length)
    (hok : iterateOK s targetX targetY) :
    chainInv s.basePoint (iterate s targetX targetY).segments :=
  iterate_chainInv s targetX targetY hlen hok

/-- Witness for C1 on a concrete two-segment chain and target. -/
theorem c1_length_preservation_witness :
    (wChain.segments ≠ [] ∧ (∀ seg ∈ wChain.segments, 0 ≤ seg.length) ∧
      iterateOK wChain 0 0) ∧
    chainInv wChain.basePoint (iterate wChain 0 0).segments :=
  ⟨⟨by simp [wChain], wChain_lengths, wChain_iterateOK⟩,
   c1_length_preservation wChain 0 0 (by simp [wChain]) wChain_lengths wChain_iterateOK⟩

/-- C2 counterexample: the target `(-5, 0)` is strictly inside the reachable
disk of the single-segment chain `wSingle` (distance 5 < armLength 10), yet
`compute` diverges — it never returns true — because every sweep leaves the
joint frozen at `(10, 0)`, outside the margin. -/
theorem c2_counterexample :
    isReachable wSingle (-5) 0 ∧ compute wSingle (-5) 0 = ComputeOutcome.diverges := by
  have hr : isReachable wSingle (-5) 0 := by
    show nrm (Vec2.sub wSingle.basePoint ⟨-5, 0⟩) < wSingle.armLength
    have hs : Vec2.sub wSingle.basePoint ⟨-5, 0⟩ = ⟨5, 0⟩ := by
      norm_num [wSingle, Vec2.sub]
    rw [hs, nrm_x_axis 5 (by norm_num)]
    norm_num [wSingle]
  refine ⟨hr, wSingle_diverges (-5) 0 hr ?_⟩
  have hs : Vec2.sub (⟨10, 0⟩ : Vec2) ⟨-5, 0⟩ = ⟨15, 0⟩ := by
    norm_num [Vec2.sub, Vec2.mk.injEq]
  rw [hs, nrm_x_axis 15 (by norm_num)]
  norm_num

/-- C2 amended: for a reachable target, whenever some finite number of
sweeps brings the end effector within `marginOfError` (which can fail, e.g.
on a single-segment chain), `compute` returns true and the final state's
end effector is within `marginOfError` of the target. -/
theorem c2_solve_converging (s : FabrikSolver2D) (targetX targetY : ℝ)
    (hr : isReachable s targetX targetY)
    (hc : ∃ n, marginHolds (iterateN s targetX targetY n) targetX targetY) :
    ∃ s', compute s targetX targetY = ComputeOutcome.returns true s' ∧
      marginHolds s' targetX targetY ∧ s'.marginOfError = s.marginOfError :=
  compute_of_converging s targetX targetY hr hc

/-- Witness for the amended C2 on a chain whose end effector already
coincides with the reachable target. -/
theorem c2_solve_converging_witness :
    (isReachable wSlack 5 0 ∧
      (∃ n, marginHolds (iterateN wSlack 5 0 n) 5 0)) ∧
    ∃ s', compute wSlack 5 0 = ComputeOutcome.returns true s' ∧
      marginHolds s' 5 0 ∧ s'.marginOfError = wSlack.marginOfError :=
  ⟨⟨wSlack_reachable, ⟨0, wSlack_margin⟩⟩,
   c2_solve_converging wSlack 5 0 wSlack_reachable ⟨0, wSlack_margin⟩⟩

/-- C3 counterexample: at the reachable target `(-3, 0)` the single-segment
chain `wSingle` makes `compute` spin forever — there is no iteration cutoff
and no best-effort return. -/
theorem c3_counterexample : compute wSingle (-3) 0 = ComputeOutcome.diverges := by
  have hr : isReachable wSingle (-3) 0 := by
    show nrm (Vec2.sub wSingle.basePoint ⟨-3, 0⟩) < wSingle.armLength
    have hs : Vec2.sub wSingle.basePoint ⟨-3, 0⟩ = ⟨3, 0⟩ := by
      norm_num [wSingle, Vec2.sub]
    rw [hs, nrm_x_axis 3 (by norm_num)]
    norm_num [wSingle]
  refine wSingle_diverges (-3) 0 hr ?_
  have hs : Vec2.sub (⟨10, 0⟩ : Vec2) ⟨-3, 0⟩ = ⟨13, 0⟩ := by
    norm_num [Vec2.sub, Vec2.mk.injEq]
  rw [hs, nrm_x_axis 13 (by norm_num)]
  norm_num

/-- C3 amended: `compute` has no maximum-iteration cutoff; it fails to
terminate exactly when the target is reachable, the chain is nonempty, and
no number of sweeps ever satisfies the margin test — in that case it loops
forever instead of returning a best-effort pose or a distinct status. -/
theorem c3_no_cutoff (s : FabrikSolver2D) (targetX targetY : ℝ) :
    compute s targetX targetY = ComputeOutcome.diverges ↔
      isReachable s targetX targetY ∧ s.segments ≠ [] ∧
        ∀ n, ¬ marginHolds (iterateN s targetX targetY n) targetX targetY :=
  compute_diverges_iff s targetX targetY

/-- C4: when the target's distance from the base point is at least
`armLength`, `compute` returns false and the returned state is exactly the
pre-call state — no joint position or any other field is modified. -/
theorem c4_unreachable_noop (s : FabrikSolver2D) (targetX targetY : ℝ)
    (h : s.armLength ≤ nrm (Vec2.sub s.basePoint ⟨targetX, targetY⟩)) :
    compute s targetX targetY = ComputeOutcome.returns false s :=
  compute_of_unreachable s targetX targetY (not_lt.mpr h)

/-- Witness for C4 at a concrete far-away target. -/
theorem c4_unreachable_noop_witness :
    wSingle.armLength ≤ nrm (Vec2.sub wSingle.basePoint ⟨99, 0⟩) ∧
    compute wSingle 99 0 = ComputeOutcome.returns false wSingle := by
  have h : wSingle.armLength ≤ nrm (Vec2.sub wSingle.basePoint ⟨99, 0⟩) := by
    have hs : Vec2.sub wSingle.basePoint ⟨99, 0⟩ = ⟨-99, 0⟩ := by
      norm_num [wSingle, Vec2.sub]
    rw [hs, nrm_eval (-99) 0 99 (by norm_num) (by norm_num)]
    norm_num [wSingle]
  exact ⟨h, c4_unreachable_noop wSingle 99 0 h⟩

/-- C5: `isReachable` holds iff the Euclidean distance from the base point
to the target is strictly below `armLength`; and a freshly constructed
solver with no segments (`armLength = 0`) is never reachable, in particular
for any target distinct from the base point. -/
theorem c5_reachability (s : FabrikSolver2D) (targetX targetY p q m tX tY : ℝ)
    (h : (⟨tX, tY⟩ : Vec2) ≠ (FabrikSolver2D.init p q m).basePoint) :
    (isReachable s targetX targetY ↔
      specEuclideanDist s.basePoint ⟨targetX, targetY⟩ < s.armLength) ∧
    ¬ isReachable (FabrikSolver2D.init p q m) tX tY :=
  ⟨Iff.rfl, isReachable_of_init p q m tX tY⟩

/-- Witness for C5 at concrete solver states and targets. -/
theorem c5_reachability_witness :
    ((⟨1, 0⟩ : Vec2) ≠ (FabrikSolver2D.init 0 0 (1 / 100)).basePoint) ∧
    ((isReachable wSingle 4 0 ↔
        specEuclideanDist wSingle.basePoint ⟨4, 0⟩ < wSingle.armLength) ∧
      ¬ isReachable (FabrikSolver2D.init 0 0 (1 / 100)) 1 0) := by
  have h : (⟨1, 0⟩ : Vec2) ≠ (FabrikSolver2D.init 0 0 (1 / 100)).basePoint := by
    norm_num [FabrikSolver2D.init, Vec2.mk.injEq]
  exact ⟨h, c5_reachability wSingle 4 0 0 0 (1 / 100) 1 0 h⟩

/-- C6 counterexample: appending a segment of length `-1` to a fresh solver
raises no error; the segment is appended (count goes from 0 to 1) and
`armLength` becomes `-1` — the chain is not left unmodified. -/
theorem c6_counterexample :
    (addSegment (FabrikSolver2D.init 0 0 (1 / 100)) (-1) 0).segments.length = 1 ∧
    (addSegment (FabrikSolver2D.init 0 0 (1 / 100)) (-1) 0).armLength = -1 := by
  rw [addSegment_none (FabrikSolver2D.init 0 0 (1 / 100)) (-1) 0 rfl]
  refine ⟨rfl, ?_⟩
  show (0 : ℝ) + (-1) = -1
  norm_num

/-- C6 amended: `addSegment` performs no validation at all: for every
length, including zero and negative ones, it appends the new segment
(segment count grows by one) and adds the supplied length to `armLength`;
no error is ever raised and the chain is always modified. -/
theorem c6_append_no_validation (s : FabrikSolver2D) (len ang : ℝ) :
    (addSegment s len ang).segments.length = s.segments.length + 1 ∧
    (addSegment s len ang).armLength = s.armLength + len := by
  rcases hL : s.segments.getLast? with _ | last
  · rw [addSegment_none s len ang hL]
    exact ⟨by simp, rfl⟩
  · rw [addSegment_some s len ang last hL]
    exact ⟨by simp, rfl⟩

/-- C8 counterexample: `compute` on a solver with no segments appended does
not fail with any error — the reachability test is false (`armLength = 0`),
so it returns false with the state untouched, never consulting the missing
end effector. -/
theorem c8_counterexample :
    compute (FabrikSolver2D.init 0 0 (1 / 100)) 1 0 =
      ComputeOutcome.returns false (FabrikSolver2D.init 0 0 (1 / 100)) :=
  compute_of_unreachable _ _ _ (isReachable_of_init 0 0 (1 / 100) 1 0)

/-- C8 amended: on a solver with no segments appended, `inMarginOfError`
fails (it indexes the last element of an empty list — modelled as `none`),
but `compute` does not fail: for every target it returns false without
touching the end effector, because the reachability test can never hold
with `armLength = 0`. -/
theorem c8_empty_chain (p q m targetX targetY : ℝ) :
    inMarginOfError (FabrikSolver2D.init p q m) targetX targetY = none ∧
    compute (FabrikSolver2D.init p q m) targetX targetY =
      ComputeOutcome.returns false (FabrikSolver2D.init p q m) :=
  ⟨inMarginOfError_of_init p q m targetX targetY,
   compute_of_unreachable _ _ _ (isReachable_of_init p q m targetX targetY)⟩

/-- C9: for a positive length, `addSegment` appends exactly one segment of
that length, anchored at the last joint position (the base point when the
chain is empty), whose stored cumulative angle is the supplied relative
angle plus the previous segment's cumulative angle (just the relative angle
when first), whose initial joint position is the anchor plus
`length * (cos angle, sin angle)` with the angle converted from degrees to
radians, and `armLength` grows by exactly that length. -/
theorem c9_append_segment (s : FabrikSolver2D) (len ang : ℝ) (h : 0 < len) :
    ∃ seg, (addSegment s len ang).segments = s.segments ++ [seg] ∧
      (addSegment s len ang).armLength = s.armLength + len ∧
      seg.length = len ∧
      (s.segments.getLast? = none → seg.angle = ang ∧
        seg.point = Vec2.add s.basePoint
          ⟨len * Real.cos (radians seg.angle), len * Real.sin (radians seg.angle)⟩) ∧
      (∀ last, s.segments.getLast? = some last → seg.angle = ang + last.angle ∧
        seg.point = Vec2.add last.point
          ⟨len * Real.cos (radians seg.angle), len * Real.sin (radians seg.angle)⟩) := by
  rcases hL : s.segments.getLast? with _ | last
  · rw [addSegment_none s len ang hL]
    refine ⟨Segment2D.make s.basePoint.x s.basePoint.y len ang, rfl, rfl, rfl, ?_, ?_⟩
    · intro _
      refine ⟨rfl, ?_⟩
      show (⟨s.basePoint.x + Real.cos (radians ang) * len,
            s.basePoint.y + Real.sin (radians ang) * len⟩ : Vec2) =
        Vec2.add s.basePoint ⟨len * Real.cos (radians ang), len * Real.sin (radians ang)⟩
      simp only [Vec2.add, Vec2.mk.injEq]
      exact ⟨by ring, by ring⟩
    · intro last hlast
      exact Option.noConfusion hlast
  · rw [addSegment_some s len ang last hL]
    refine ⟨Segment2D.make last.point.x last.point.y len (ang + last.angle),
      rfl, rfl, rfl, ?_, ?_⟩
    · intro hnone
      exact Option.noConfusion hnone
    · intro last' hlast'
      injection hlast' with h'
      subst h'
      refine ⟨rfl, ?_⟩
      show (⟨last.point.x + Real.cos (radians (ang + last.angle)) * len,
            last.point.y + Real.sin (radians (ang + last.angle)) * len⟩ : Vec2) =
        Vec2.add last.point ⟨len * Real.cos (radians (ang + last.angle)),
          len * Real.sin (radians (ang + last.angle))⟩
      simp only [Vec2.add, Vec2.mk.injEq]
      exact ⟨by ring, by ring⟩

/-- Witness for C9, appending a length-2 segment at relative angle 30 to a
chain whose last segment has cumulative angle 0. -/
theorem c9_append_segment_witness :
    (0 : ℝ) < 2 ∧
    ∃ seg, (addSegment wSingle 2 30).segments = wSingle.segments ++ [seg] ∧
      (addSegment wSingle 2 30).armLength = wSingle.armLength + 2 ∧
      seg.length = 2 ∧
      (wSingle.segments.getLast? = none → seg.angle = 30 ∧
        seg.point = Vec2.add wSingle.basePoint
          ⟨2 * Real.cos (radians seg.angle), 2 * Real.sin (radians seg.angle)⟩) ∧
      (∀ last, wSingle.segments.getLast? = some last → seg.angle = 30 + last.angle ∧
        seg.point = Vec2.add last.point
          ⟨2 * Real.cos (radians seg.angle), 2 * Real.sin (radians seg.angle)⟩) :=
  ⟨by norm_num, c9_append_segment wSingle 2 30 (by norm_num)⟩

/-- C10: on a single-segment chain, one `iterate` sweep sets the sole joint
to `base + length * unit(joint - base)`; the backward pass does nothing and
the forward pass takes the base-anchoring branch, so the result is the same
for any two targets. -/
theorem c10_single_segment (s : FabrikSolver2D) (seg : Segment2D)
    (targetX targetY tX tY : ℝ) (h : s.segments = [seg]) :
    (iterate s targetX targetY).segments =
      [{ seg with point := singleSweepPoint s.basePoint seg }] ∧
    iterate s targetX targetY = iterate s tX tY := by
  refine ⟨iterate_single s seg targetX targetY h, ?_⟩
  apply iterate_ext
  rw [iterate_single s seg targetX targetY h, iterate_single s seg tX tY h]

/-- Witness for C10 on the concrete single-segment chain and two distinct
targets. -/
theorem c10_single_segment_witness :
    wSingle.segments = [wSingleSeg] ∧
    ((iterate wSingle 1 2).segments =
        [{ wSingleSeg with point := singleSweepPoint wSingle.basePoint wSingleSeg }] ∧
      iterate wSingle 1 2 = iterate wSingle 7 8) :=
  ⟨rfl, c10_single_segment wSingle wSingleSeg 1 2 7 8 rfl⟩

end Fabrik
